import Mathlib

/-!
Shallow embedding of the ffparquet repository's merge / split / repartition
engine (src/cmd/merge.rs, src/cmd/split.rs, src/main.rs) together with
theorems settling the frozen claims about it.

The parquet container library (SerializedFileWriter, append_column) is an
external dependency of the repository; the few library behaviours the claims
depend on are modelled from the spec and marked as such in doc comments.
-/

namespace FFParquet

/-! ## Data model: footers, row groups, column chunks (spec section 3) -/

/-- Physical column types, standing in for the parquet physical types. -/
inductive PhysType where
  | boolean
  | int32
  | int64
  | float32
  | float64
  | byteArray
  deriving DecidableEq, Repr

/-- One leaf column of a schema: name, type, nullability. -/
structure SchemaCol where
  name : String
  ptype : PhysType
  required : Bool
  deriving DecidableEq, Repr

/-- A schema is the ordered list of leaf columns; equality is structural,
matching the `expected != actual` comparison in merge.rs. -/
abbrev Schema := List SchemaCol

/-- Compression codecs carried in column-chunk metadata. -/
inductive Codec where
  | uncompressed
  | snappy
  | gzip
  | lz4
  | zstd
  deriving DecidableEq, Repr

/-- Page encodings carried in column-chunk metadata. -/
inductive PageEncoding where
  | plain
  | rle
  | dictionary
  | deltaBinaryPacked
  deriving DecidableEq, Repr

/-- Optional per-chunk statistics (abstracted to counts and int bounds). -/
structure ChunkStats where
  nullCount : Nat
  minVal : Option Int
  maxVal : Option Int
  deriving DecidableEq, Repr

/-- Column-chunk metadata: byte location of the compressed payload in its
source file plus the descriptive fields the transplant must copy verbatim. -/
structure ColumnChunkMeta where
  fileOffset : Nat
  compressedSize : Nat
  uncompressedSize : Nat
  codec : Codec
  encodings : List PageEncoding
  numValues : Nat
  statistics : Option ChunkStats
  deriving DecidableEq, Repr

/-- Row-group metadata: row count and one chunk per schema column. -/
structure RowGroupMeta where
  numRows : Nat
  columns : List ColumnChunkMeta
  deriving DecidableEq, Repr

/-- A parsed footer: schema plus the ordered row groups. -/
structure Footer where
  schema : Schema
  rowGroups : List RowGroupMeta
  deriving DecidableEq, Repr

/-- Total logical rows of a footer: sum of its row groups' row counts. -/
def Footer.totalRows (f : Footer) : Nat :=
  (f.rowGroups.map (·.numRows)).sum

/-- Erase the destination-dependent byte offset of a chunk, leaving the
logical content descriptors. -/
def ColumnChunkMeta.stripOffset (c : ColumnChunkMeta) : ColumnChunkMeta :=
  { c with fileOffset := 0 }

/-- Erase the byte offsets of every chunk of a row group. -/
def RowGroupMeta.stripOffsets (rg : RowGroupMeta) : RowGroupMeta :=
  { rg with columns := rg.columns.map ColumnChunkMeta.stripOffset }

/-! ## ChunkTransplanter (merge.rs 73-89, split.rs 69-91)

Both commands build, per source column chunk, a `ColumnCloseResult` whose
`bytes_written` is the source compressed size, whose `rows_written` is the
source row group's row count, and whose `metadata` is `column.clone()`,
then hand it to the container library's `append_column`. -/

/-- The close-result record built in merge.rs lines 77-84 and
split.rs lines 75-82. -/
structure ColumnCloseResult where
  bytesWritten : Nat
  rowsWritten : Nat
  metadata : ColumnChunkMeta
  deriving DecidableEq, Repr

/-- merge.rs 77-84 / split.rs 75-82: the close result for one source chunk:
sizes and metadata are taken from the source chunk, the row count from the
source row group. -/
def mkCloseResult (numRows : Nat) (column : ColumnChunkMeta) : ColumnCloseResult :=
  { bytesWritten := column.compressedSize
    rowsWritten := numRows
    metadata := column }

/-- Modelled from the spec: the container library's `append_column`
(SerializedFileWriter), which the repository calls but does not implement.
It appends the chunk's compressed bytes unchanged at the destination's
current write position and records the close result's metadata with the
offset rewritten to that position; the write position advances by the
chunk's byte length. -/
def appendColumn (pos : Nat) (r : ColumnCloseResult) : ColumnChunkMeta × Nat :=
  ({ r.metadata with fileOffset := pos }, pos + r.bytesWritten)

/-- The inner per-column loop of merge.rs 76-86 / split.rs 74-84: transplant
each chunk of a row group in schema-ordinal order, threading the destination
write position. -/
def transplantColumns (numRows : Nat) (pos : Nat) :
    List ColumnChunkMeta → List ColumnChunkMeta × Nat
  | [] => ([], pos)
  | c :: cs =>
    let step := appendColumn pos (mkCloseResult numRows c)
    let rest := transplantColumns numRows step.2 cs
    (step.1 :: rest.1, rest.2)

/-- Transplant one row group into the destination at write position `pos`:
the destination row group has the source's row count and the per-column
transplanted chunks. -/
def transplantRowGroup (pos : Nat) (rg : RowGroupMeta) : RowGroupMeta × Nat :=
  let cols := transplantColumns rg.numRows pos rg.columns
  ({ numRows := rg.numRows, columns := cols.1 }, cols.2)

/-- Append a sequence of row groups by transplantation, in order, threading
the destination write position (the outer loops of merge.rs 73-89 and the
inner loop of split.rs 69-91). -/
def appendRowGroups (pos : Nat) : List RowGroupMeta → List RowGroupMeta × Nat
  | [] => ([], pos)
  | rg :: rgs =>
    let one := transplantRowGroup pos rg
    let rest := appendRowGroups one.2 rgs
    (one.1 :: rest.1, rest.2)

/-- Byte position of the first row group in a fresh container file, after the
4-byte magic. -/
def headerSize : Nat := 4

/-! ## merge_main (merge.rs 40-94) -/

/-- Errors merge_main can return (merge.rs wraps both in
`ParquetError::General`; they are distinguished here by their message). -/
inductive MergeError where
  | noInput
  | schemaMismatch (expected actual : Schema)
  deriving DecidableEq, Repr

/-- Result of running merge_main: the files created on disk, in creation
order, and the outcome (the output footer on success). -/
structure MergeRun where
  created : List String
  result : Except MergeError Footer
  deriving Repr

/-- merge.rs 40-94, in source order: reject an empty input list; create the
output file (line 47); open the inputs and parse their footers (49-57);
compare every further schema against the first (59-67); then transplant all
row groups of all inputs, inputs in the order given, each input's row groups
in their original order (73-89). -/
def merge_main (output : String) (inputs : List Footer) : MergeRun :=
  match inputs with
  | [] => { created := [], result := Except.error MergeError.noInput }
  | first :: rest =>
    let expected := first.schema
    match rest.find? (fun m => decide (m.schema ≠ expected)) with
    | some bad =>
      { created := [output]
        result := Except.error (MergeError.schemaMismatch expected bad.schema) }
    | none =>
      let rgs := ((first :: rest).map Footer.rowGroups).flatten
      { created := [output]
        result := Except.ok
          { schema := expected
            rowGroups := (appendRowGroups headerSize rgs).1 } }

/-! ## split_main (split.rs 45-96) -/

/-- Zero-padded 4-digit rendering of an index, the `{:04}` format used in
split.rs line 63 (wider numbers are rendered unpadded). -/
def pad4 (n : Nat) : String :=
  let s := toString n
  if s.length < 4 then String.mk (List.replicate (4 - s.length) '0') ++ s else s

/-- Output file name used by split.rs line 63. -/
def splitFileName (out : String) (idx : Nat) : String :=
  out ++ "_" ++ pad4 idx ++ ".parquet"

/-- One output file produced by split: its name and the transplanted row
groups written to it. -/
structure SplitFile where
  name : String
  rowGroups : List RowGroupMeta
  deriving DecidableEq, Repr

/-- The mutable state of split_main's outer while loop (split.rs 58-93):
the next output index, the remaining row-group iterator, the `left`
counter, and the files created so far, in creation order. -/
structure SplitState where
  outputIdx : Nat
  pending : List RowGroupMeta
  left : Nat
  files : List SplitFile
  deriving DecidableEq, Repr

/-- One iteration of the outer while loop (split.rs 62-93): create the next
output file, run the inner `for _ in 0..groups` loop — which takes the next
row group and decrements `left` on `Some`, and breaks on `None`, hence
consumes `min groups left` row groups — transplant the taken groups into
the fresh file, and close it. -/
def splitStep (out : String) (groups : Nat) (s : SplitState) : SplitState :=
  let taken := s.pending.take groups
  let file : SplitFile :=
    { name := splitFileName out s.outputIdx
      rowGroups := (appendRowGroups headerSize taken).1 }
  { outputIdx := s.outputIdx + 1
    pending := s.pending.drop groups
    left := s.left - taken.length
    files := s.files ++ [file] }

/-- The outer `while left > 0` loop of split.rs, run for at most `fuel`
iterations (the loop itself has no bound; `fuel` makes the model total so
that both termination and non-termination can be stated). -/
def splitRun (out : String) (groups : Nat) : Nat → SplitState → SplitState
  | 0, s => s
  | fuel + 1, s =>
    if 0 < s.left then splitRun out groups fuel (splitStep out groups s) else s

/-- Initial loop state of split_main (split.rs 58-60): index 0, all parsed
row groups pending, `left` equal to their number, no file created yet. -/
def splitInit (rgs : List RowGroupMeta) : SplitState :=
  { outputIdx := 0, pending := rgs, left := rgs.length, files := [] }

/-- The files split_main creates for a pending list, starting at output
index `idx`: successive chunks of at most `groups` row groups, each
transplanted into a fresh file (defined only for `groups ≥ 1`; the real
loop does not terminate for `groups = 0`). -/
def chunkFiles (out : String) (groups idx : Nat) (rgs : List RowGroupMeta) :
    List SplitFile :=
  if h : rgs = [] ∨ groups = 0 then []
  else
    { name := splitFileName out idx
      rowGroups := (appendRowGroups headerSize (rgs.take groups)).1 }
      :: chunkFiles out groups (idx + 1) (rgs.drop groups)
termination_by rgs.length
decreasing_by
  simp only [not_or] at h
  have h1 : rgs.length ≠ 0 := by
    simpa [List.length_eq_zero] using h.1
  have h2 : 0 < groups := Nat.pos_of_ne_zero h.2
  simp only [List.length_drop]
  omega

/-! ## The repartition path (main.rs 101-221) -/

/-- A decoded record batch (abstracted to its row count, which is all the
claims need). -/
structure Batch where
  rows : Nat
  deriving DecidableEq, Repr

/-- A decode failure from the batch reader (abstracted). -/
inductive DecodeError where
  | corrupt (at_ : Nat)
  deriving DecidableEq, Repr

/-- The `Message` enum of main.rs 96-99. -/
inductive Message where
  | DONE
  | CONTENT (b : Batch)
  deriving DecidableEq, Repr

/-- The fixed source batch size of main.rs line 118. -/
def batch_size : Nat := 10000

/-- main.rs 131-132: the per-file row limit is the product of the `groups`
and `size` arguments, computed in u32 (hence reduced mod 2^32) and widened
to u64. -/
def row_limit_per_file (max_row_group_count max_row_group_size : Nat) : Nat :=
  (max_row_group_count * max_row_group_size) % 2 ^ 32

/-- main.rs 133-142: the number of output files (and of worker tasks and of
termination signals). With no row limit configured: one file when the whole
source fits in one batch, else one per configured job; with a row limit:
integer (floor) division plus one. -/
def total_tasks (rowLimit totalRows jobs : Nat) : Nat :=
  if rowLimit = 0 then
    if totalRows < batch_size then 1 else jobs
  else
    totalRows / rowLimit + 1

/-- The claimed output-file count, written from the spec's words for
comparison: ceil(R / S) with minimum 1 when a rows-per-file limit is
configured, otherwise 1 below one source batch and `jobs` at or above it. -/
def total_tasks_spec (rowLimit totalRows jobs : Nat) : Nat :=
  if rowLimit = 0 then
    if totalRows < batch_size then 1 else jobs
  else
    max 1 ((totalRows + rowLimit - 1) / rowLimit)

/-- The CONTENT messages the reader thread sends (main.rs 158-167): one per
successfully decoded batch, stopping at the first decode failure, which
only breaks the loop — the remaining batches are dropped and no error value
is recorded anywhere. -/
def contentMessages : List (Except DecodeError Batch) → List Message
  | [] => []
  | Except.ok b :: rest => Message.CONTENT b :: contentMessages rest
  | Except.error _ :: _ => []

/-- Everything the reader thread enqueues, in order (main.rs 157-173): the
decoded batches up to the first failure, then exactly `total_tasks` DONE
messages. The thread's join handle is discarded at line 157, so nothing it
observes can reach the caller. -/
def readerMessages (batches : List (Except DecodeError Batch)) (tasks : Nat) :
    List Message :=
  contentMessages batches ++ List.replicate tasks Message.DONE

/-- What one `rx.lock().recv_timeout(...)` call in the worker loop
(main.rs 190-193) yields: a message, or a timeout/disconnect error. -/
inductive RecvEvent where
  | recv (m : Message)
  | timedOut
  deriving DecidableEq, Repr

/-- How a worker's loop ended: by its DONE message (main.rs 201-204) or by
a receive error, i.e. timeout or disconnected producer (main.rs 206). -/
inductive WorkerExit where
  | gotDone
  | stalled
  deriving DecidableEq, Repr

/-- What one worker thread did (main.rs 186-214): the batches it wrote, in
order, whether it flushed and closed its writer, and how its loop ended. -/
structure WorkerResult where
  written : List Batch
  flushed : Bool
  closed : Bool
  exit : WorkerExit
  deriving DecidableEq, Repr

/-- The worker's receive loop (main.rs 189-208) over the sequence of receive
results it observes: CONTENT appends the batch to its writer, DONE breaks,
and a receive error (timeout) breaks; an exhausted event list stands for
the producer being gone, which surfaces as the same `Err` arm. -/
def workerLoop : List RecvEvent → List Batch → List Batch × WorkerExit
  | [], acc => (acc, WorkerExit.stalled)
  | RecvEvent.timedOut :: _, acc => (acc, WorkerExit.stalled)
  | RecvEvent.recv Message.DONE :: _, acc => (acc, WorkerExit.gotDone)
  | RecvEvent.recv (Message.CONTENT b) :: rest, acc => workerLoop rest (acc ++ [b])

/-- The whole worker thread body (main.rs 186-214): run the loop, then — on
every exit path — flush, close the writer and return the admission credit.
The closure's return value is `()`: it carries no error. -/
def workerBody (events : List RecvEvent) : WorkerResult :=
  let run := workerLoop events []
  { written := run.1, flushed := true, closed := true, exit := run.2 }

/-- The error, if any, a worker reports to the caller. Both exits of the
receive loop fall through to the same tail (main.rs 209-213), which
constructs no error value, and main only joins the thread (line 219), so
nothing is reported in either case. -/
def workerReport (r : WorkerResult) : Option String :=
  match r.exit with
  | WorkerExit.gotDone => none
  | WorkerExit.stalled => none

/-- Sequential consumption of the shared queue by `tasks` workers, one after
the other — the schedule forced when `jobs = 1`, since the single admission
credit only returns when the previous worker has closed. Each worker
consumes messages until its DONE (or until the queue is exhausted, which
stands for a timeout). -/
def workerConsume : List Message → List Batch × List Message
  | [] => ([], [])
  | Message.DONE :: rest => ([], rest)
  | Message.CONTENT b :: rest =>
    let r := workerConsume rest
    (b :: r.1, r.2)

/-- Run `tasks` sequential workers over the queue contents, collecting the
batch list each one writes to its output file. -/
def runWorkers : Nat → List Message → List (List Batch)
  | 0, _ => []
  | t + 1, msgs =>
    let one := workerConsume msgs
    one.1 :: runWorkers t one.2

/-! ## main (main.rs 101-221), as an effect trace -/

/-- The externally visible actions of main, in program order. -/
inductive MainAction where
  | readInputMeta
  | createOutput (name : String)
  | logError (msg : String)
  deriving DecidableEq, Repr

/-- One run of main: its action trace, the process exit code, whether any
error reached the caller, and the batches written to each output file. -/
structure MainRun where
  actions : List MainAction
  exitCode : Nat
  errorReported : Bool
  outputs : List (List Batch)
  deriving DecidableEq, Repr

/-- Output file name used by main.rs line 184 (no zero padding). -/
def taskFileName (pfx : String) (i : Nat) : String :=
  pfx ++ "_" ++ toString i ++ ".parquet"

/-- The command-line arguments of main.rs 62-94 that the control flow
depends on (`groups`, `size`, `jobs` are u16, u32, u8 respectively; they are
modelled as the natural numbers they denote). -/
structure Args where
  max_row_group_count : Nat
  max_row_group_size : Nat
  jobs : Nat
  pfx : Option String
  deriving DecidableEq, Repr

/-- main.rs 101-221 in source order, under the sequential (`jobs = 1`)
schedule and with I/O itself abstracted to the trace: with no output pfx,
dump the input metadata and return; otherwise summarize the input (which
reads its footer), then reject a zero `size` by logging an error and
returning — the function returns normally, so the process exit code is 0 —
then reopen the input, compute the task count, spawn the reader and the
workers, and join them; main returns normally, so the exit code is 0 and no
error is reported. -/
def main (args : Args) (input : Footer)
    (batches : List (Except DecodeError Batch)) : MainRun :=
  match args.pfx with
  | none =>
    { actions := [MainAction.readInputMeta]
      exitCode := 0
      errorReported := false
      outputs := [] }
  | some p =>
    if args.max_row_group_size = 0 then
      { actions := [MainAction.readInputMeta,
          MainAction.logError "please set a value bigger than 0 for max_row_group_size"]
        exitCode := 0
        errorReported := false
        outputs := [] }
    else
      let rowLimit := row_limit_per_file args.max_row_group_count args.max_row_group_size
      let tasks := total_tasks rowLimit input.totalRows args.jobs
      let msgs := readerMessages batches tasks
      { actions := [MainAction.readInputMeta, MainAction.readInputMeta]
          ++ (List.range tasks).map (fun i => MainAction.createOutput (taskFileName p i))
        exitCode := 0
        errorReported := false
        outputs := runWorkers tasks msgs }

/-! ## The dispatcher as a transition system (main.rs 145-220)

The shared queue, the credit channel and the worker threads of the
repartition path, as a small-step transition system over all interleavings:
a pending worker may start once it holds a credit (main.rs 149-151, 180);
a waiting worker may dequeue the head message, writing a CONTENT batch and
staying in its loop, or breaking, flushing, closing and returning its
credit on DONE (main.rs 189-213). -/

/-- Lifecycle phase of one worker thread of main.rs 179-216. -/
inductive WPhase where
  | pending
  | waiting
  | closed
  deriving DecidableEq, Repr

/-- One worker: its phase and how many times it has closed its writer. -/
structure DWorker where
  phase : WPhase
  closes : Nat
  deriving DecidableEq, Repr

/-- Global state of the dispatcher: the FIFO queue contents, all workers,
and the free admission credits. -/
structure DState where
  queue : List Message
  workers : List DWorker
  credits : Nat
  deriving DecidableEq, Repr

/-- One interleaved step of the repartition pipeline after the reader has
filled the queue: `w` names the worker at position `i`. -/
inductive DStep : DState → DState → Prop where
  | start (s : DState) (i : Nat) (hi : i < s.workers.length) (w : DWorker)
      (hw : s.workers.get ⟨i, hi⟩ = w)
      (hp : w.phase = WPhase.pending)
      (hc : 0 < s.credits) :
      DStep s
        { queue := s.queue
          workers := s.workers.set i { phase := WPhase.waiting, closes := w.closes }
          credits := s.credits - 1 }
  | data (s : DState) (b : Batch) (rest : List Message) (i : Nat)
      (hi : i < s.workers.length) (w : DWorker)
      (hw : s.workers.get ⟨i, hi⟩ = w)
      (hq : s.queue = Message.CONTENT b :: rest)
      (hp : w.phase = WPhase.waiting) :
      DStep s { queue := rest, workers := s.workers, credits := s.credits }
  | close (s : DState) (rest : List Message) (i : Nat)
      (hi : i < s.workers.length) (w : DWorker)
      (hw : s.workers.get ⟨i, hi⟩ = w)
      (hq : s.queue = Message.DONE :: rest)
      (hp : w.phase = WPhase.waiting) :
      DStep s
        { queue := rest
          workers := s.workers.set i { phase := WPhase.closed, closes := w.closes + 1 }
          credits := s.credits + 1 }

/-- Reachability under dispatcher steps. -/
def DReach : DState → DState → Prop :=
  Relation.ReflTransGen DStep

/-- A state in which no step is possible: the pipeline can make no further
progress. -/
def DTerminal (s : DState) : Prop :=
  ∀ s', ¬ DStep s s'

/-- Initial dispatcher state once the reader's sends are accounted for:
the queue holds the decoded batches then exactly `tasks` DONE messages
(main.rs 157-173), there is one pending worker per task (179-216), and
`jobs` free credits (147-151). -/
def dispatchInit (tasks jobs : Nat)
    (batches : List (Except DecodeError Batch)) : DState :=
  { queue := readerMessages batches tasks
    workers := List.replicate tasks { phase := WPhase.pending, closes := 0 }
    credits := jobs }

/-- Is this worker still inside its receive loop? -/
def isWaiting (w : DWorker) : Bool := decide (w.phase = WPhase.waiting)

/-- Has this worker not yet started? -/
def isPending (w : DWorker) : Bool := decide (w.phase = WPhase.pending)

/-- Has this worker not yet closed its output? -/
def isNonClosed (w : DWorker) : Bool := decide (w.phase ≠ WPhase.closed)

/-- Is this message a termination signal? -/
def isDone (m : Message) : Bool := decide (m = Message.DONE)

/-- Decreasing measure for dispatcher steps: queue length plus the number
of not-yet-started workers. -/
def dMeasure (s : DState) : Nat :=
  s.queue.length + s.workers.countP isPending

/-- Inductive invariant of the dispatcher: the free credits and the workers
inside their loops balance to the parallelism budget; the queue holds one
DONE per not-yet-closed worker; a closed worker has closed exactly once and
an unclosed one not at all; the queue is data messages followed by DONE
messages; and once every worker has closed the queue is empty. -/
structure DInv (jobs : Nat) (s : DState) : Prop where
  credits_bal : s.credits + s.workers.countP isWaiting = jobs
  done_bal : s.queue.countP isDone = s.workers.countP isNonClosed
  closes_closed : ∀ w ∈ s.workers, w.phase = WPhase.closed → w.closes = 1
  closes_open : ∀ w ∈ s.workers, w.phase ≠ WPhase.closed → w.closes = 0
  shape : ∃ front k, s.queue = front ++ List.replicate k Message.DONE
      ∧ ∀ m ∈ front, m ≠ Message.DONE
  drained : (∀ w ∈ s.workers, w.phase = WPhase.closed) → s.queue = []

/-! ## Transplant lemmas -/

theorem transplantColumns_strip (numRows pos : Nat) (cs : List ColumnChunkMeta) :
    ((transplantColumns numRows pos cs).1).map ColumnChunkMeta.stripOffset
      = cs.map ColumnChunkMeta.stripOffset := by
  induction cs generalizing pos with
  | nil => simp [transplantColumns]
  | cons c cs ih =>
    simp [transplantColumns, appendColumn, mkCloseResult,
      ColumnChunkMeta.stripOffset, ih]

theorem transplantRowGroup_strip (pos : Nat) (rg : RowGroupMeta) :
    ((transplantRowGroup pos rg).1).stripOffsets = rg.stripOffsets := by
  simp [transplantRowGroup, RowGroupMeta.stripOffsets, transplantColumns_strip]

theorem transplantRowGroup_numRows (pos : Nat) (rg : RowGroupMeta) :
    ((transplantRowGroup pos rg).1).numRows = rg.numRows := rfl

theorem appendRowGroups_strip (pos : Nat) (rgs : List RowGroupMeta) :
    ((appendRowGroups pos rgs).1).map RowGroupMeta.stripOffsets
      = rgs.map RowGroupMeta.stripOffsets := by
  induction rgs generalizing pos with
  | nil => simp [appendRowGroups]
  | cons rg rgs ih => simp [appendRowGroups, transplantRowGroup_strip, ih]

theorem appendRowGroups_map_numRows (pos : Nat) (rgs : List RowGroupMeta) :
    ((appendRowGroups pos rgs).1).map RowGroupMeta.numRows
      = rgs.map RowGroupMeta.numRows := by
  induction rgs generalizing pos with
  | nil => simp [appendRowGroups]
  | cons rg rgs ih => simp [appendRowGroups, transplantRowGroup_numRows, ih]

theorem appendRowGroups_length (pos : Nat) (rgs : List RowGroupMeta) :
    ((appendRowGroups pos rgs).1).length = rgs.length := by
  induction rgs generalizing pos with
  | nil => rfl
  | cons rg rgs ih => simp [appendRowGroups, ih]

/-! ## Claim C5 -/

/-- C5: every column chunk transplanted by merge or split records, in the
destination, metadata identical to the source chunk's — codec, encoding
list, compressed and uncompressed sizes, statistics and value count copied
verbatim, the row-group row count preserved — except for the byte offset,
which is rewritten to the destination write position; the write position
advances by the chunk's compressed byte length (no recompression, no
statistics recomputation). -/
theorem transplant_copies_metadata_verbatim (pos numRows : Nat)
    (c : ColumnChunkMeta) (rg : RowGroupMeta) :
    (appendColumn pos (mkCloseResult numRows c)).1.codec = c.codec
    ∧ (appendColumn pos (mkCloseResult numRows c)).1.encodings = c.encodings
    ∧ (appendColumn pos (mkCloseResult numRows c)).1.compressedSize = c.compressedSize
    ∧ (appendColumn pos (mkCloseResult numRows c)).1.uncompressedSize = c.uncompressedSize
    ∧ (appendColumn pos (mkCloseResult numRows c)).1.numValues = c.numValues
    ∧ (appendColumn pos (mkCloseResult numRows c)).1.statistics = c.statistics
    ∧ (appendColumn pos (mkCloseResult numRows c)).1.fileOffset = pos
    ∧ (appendColumn pos (mkCloseResult numRows c)).2 = pos + c.compressedSize
    ∧ (transplantRowGroup pos rg).1.numRows = rg.numRows := by
  refine ⟨rfl, rfl, rfl, rfl, rfl, rfl, rfl, rfl, rfl⟩

/-! ## Claim C1 -/

/-- C1 (counterexample): on two concrete inputs whose schemas disagree on a
column type, merge_main does fail with a schema-mismatch error, but the
output file has already been created: the created-file list is not empty,
refuting "no output file is created / the output path is untouched". -/
theorem merge_mismatch_output_created :
    (merge_main "out.parquet"
      [{ schema := [⟨"a", PhysType.int32, true⟩], rowGroups := [] },
       { schema := [⟨"a", PhysType.int64, true⟩], rowGroups := [] }]).result
      = Except.error (MergeError.schemaMismatch
          [⟨"a", PhysType.int32, true⟩] [⟨"a", PhysType.int64, true⟩])
    ∧ (merge_main "out.parquet"
      [{ schema := [⟨"a", PhysType.int32, true⟩], rowGroups := [] },
       { schema := [⟨"a", PhysType.int64, true⟩], rowGroups := [] }]).created
      ≠ [] := by
  constructor
  · rfl
  · decide

/-- C1 (amended): for every pair (indeed list) of inputs whose footers parse
but whose schemas are not structurally equal, merge fails with a
schema-mismatch error, but the output file is created — empty — before the
schema comparison runs (merge.rs line 47 precedes lines 59-67), so the
created-file list is exactly the output path. -/
theorem merge_schema_mismatch_rejected (output : String) (first : Footer)
    (rest : List Footer) (h : ∃ m ∈ rest, m.schema ≠ first.schema) :
    (∃ e a, (merge_main output (first :: rest)).result
        = Except.error (MergeError.schemaMismatch e a))
    ∧ (merge_main output (first :: rest)).created = [output] := by
  obtain ⟨m, hm, hne⟩ := h
  have hsome : (rest.find? (fun m => decide (m.schema ≠ first.schema))).isSome := by
    rw [List.find?_isSome]
    exact ⟨m, hm, by simpa using hne⟩
  obtain ⟨bad, hbad⟩ := Option.isSome_iff_exists.mp hsome
  constructor
  · refine ⟨first.schema, bad.schema, ?_⟩
    simp only [merge_main]
    rw [hbad]
  · simp only [merge_main]
    rw [hbad]

theorem merge_schema_mismatch_rejected_witness :
    (∃ m ∈ [({ schema := [⟨"a", PhysType.int64, true⟩], rowGroups := [] } : Footer)],
        m.schema ≠ ([⟨"a", PhysType.int32, true⟩] : Schema))
    ∧ ((∃ e a, (merge_main "t.parquet"
          [{ schema := [⟨"a", PhysType.int32, true⟩], rowGroups := [] },
           { schema := [⟨"a", PhysType.int64, true⟩], rowGroups := [] }]).result
            = Except.error (MergeError.schemaMismatch e a))
        ∧ (merge_main "t.parquet"
          [{ schema := [⟨"a", PhysType.int32, true⟩], rowGroups := [] },
           { schema := [⟨"a", PhysType.int64, true⟩], rowGroups := [] }]).created
          = ["t.parquet"]) :=
  ⟨by decide, merge_schema_mismatch_rejected "t.parquet" _ _ (by decide)⟩

/-! ## Claim C3 -/

/-- C3: for inputs A (row groups g1, g2) and B (row group g3) with matching
schema, merge produces an output whose row groups are exactly [g1, g2, g3]
in that order (equal to the sources up to the rewritten byte offsets, with
the row counts preserved), and whose total row count is
rows(g1) + rows(g2) + rows(g3). -/
theorem merge_completeness (out : String) (A B : Footer) (g1 g2 g3 : RowGroupMeta)
    (hs : B.schema = A.schema) (hA : A.rowGroups = [g1, g2])
    (hB : B.rowGroups = [g3]) :
    ∃ f, (merge_main out [A, B]).result = Except.ok f
      ∧ f.rowGroups.map RowGroupMeta.stripOffsets
          = [g1.stripOffsets, g2.stripOffsets, g3.stripOffsets]
      ∧ f.rowGroups.map RowGroupMeta.numRows = [g1.numRows, g2.numRows, g3.numRows]
      ∧ f.totalRows = g1.numRows + g2.numRows + g3.numRows := by
  obtain ⟨As, Arg⟩ := A
  obtain ⟨Bs, Brg⟩ := B
  simp only [Footer.schema] at hs
  simp only [Footer.rowGroups] at hA hB
  subst hs
  subst hA
  subst hB
  refine ⟨{ schema := Bs, rowGroups := (appendRowGroups headerSize [g1, g2, g3]).1 },
    ?_, ?_, ?_, ?_⟩
  · simp [merge_main]
  · simp [appendRowGroups_strip]
  · simp [appendRowGroups_map_numRows]
  · simp only [Footer.totalRows, Footer.rowGroups, appendRowGroups_map_numRows]
    simp
    omega

theorem merge_completeness_witness :
    (([⟨"a", PhysType.int32, true⟩] : Schema) = [⟨"a", PhysType.int32, true⟩])
    ∧ (∃ f, (merge_main "m.parquet"
        [{ schema := [⟨"a", PhysType.int32, true⟩], rowGroups := [⟨3, []⟩, ⟨4, []⟩] },
         { schema := [⟨"a", PhysType.int32, true⟩], rowGroups := [⟨7, []⟩] }]).result
        = Except.ok f
      ∧ f.rowGroups.map RowGroupMeta.stripOffsets
          = [RowGroupMeta.stripOffsets ⟨3, []⟩, RowGroupMeta.stripOffsets ⟨4, []⟩,
             RowGroupMeta.stripOffsets ⟨7, []⟩]
      ∧ f.rowGroups.map RowGroupMeta.numRows = [3, 4, 7]
      ∧ f.totalRows = 3 + 4 + 7) :=
  ⟨rfl, merge_completeness "m.parquet" _ _ ⟨3, []⟩ ⟨4, []⟩ ⟨7, []⟩ rfl rfl rfl⟩

/-! ## Claim C2 -/

/-- C2 (counterexample): with a configured rows-per-file limit of 5 and 10
total rows, the code computes 10 / 5 + 1 = 3 output files, while the
claimed formula ceil(10 / 5) (minimum 1) gives 2: the repartition path does
not compute ceil(R / S). -/
theorem total_tasks_not_ceiling :
    total_tasks 5 10 4 = 3 ∧ total_tasks_spec 5 10 4 = 2
    ∧ total_tasks 5 10 4 ≠ total_tasks_spec 5 10 4 := by
  decide

/-- C2 (amended): for every total row count R, configured limit S > 0 and
parallelism J, the repartition path computes T = R / S + 1 (floor division
plus one, which is at least 1, and agrees with ceil(R / S) exactly when S
does not divide R); with no limit configured it computes T = 1 when
R < batch size and T = J otherwise, as claimed. -/
theorem total_tasks_formula (rowLimit totalRows jobs : Nat) :
    (0 < rowLimit →
      total_tasks rowLimit totalRows jobs = totalRows / rowLimit + 1
      ∧ 1 ≤ total_tasks rowLimit totalRows jobs
      ∧ (¬ rowLimit ∣ totalRows →
          total_tasks rowLimit totalRows jobs
            = total_tasks_spec rowLimit totalRows jobs))
    ∧ total_tasks 0 totalRows jobs = (if totalRows < batch_size then 1 else jobs) := by
  constructor
  · intro h
    have hne : rowLimit ≠ 0 := Nat.pos_iff_ne_zero.mp h
    refine ⟨by simp [total_tasks, hne], by simp [total_tasks, hne], ?_⟩
    intro hndvd
    have hd := Nat.div_add_mod' totalRows rowLimit
    have hr : 0 < totalRows % rowLimit :=
      Nat.pos_of_ne_zero (fun hz => hndvd (Nat.dvd_of_mod_eq_zero hz))
    have hrlt2 : totalRows % rowLimit < rowLimit := Nat.mod_lt _ h
    have hb : totalRows / rowLimit + 1 ≤ (totalRows + rowLimit - 1) / rowLimit := by
      rw [Nat.le_div_iff_mul_le h, Nat.add_mul, Nat.one_mul]
      omega
    have ha : (totalRows + rowLimit - 1) / rowLimit ≤ totalRows / rowLimit + 1 := by
      have h2 : (totalRows + rowLimit - 1) / rowLimit
          ≤ (totalRows + rowLimit) / rowLimit :=
        Nat.div_le_div_right (by omega)
      rwa [Nat.add_div_right _ h] at h2
    have hceil : (totalRows + rowLimit - 1) / rowLimit = totalRows / rowLimit + 1 :=
      Nat.le_antisymm ha hb
    simp only [total_tasks, total_tasks_spec, if_neg hne, hceil]
    exact (max_eq_right (Nat.succ_le_succ (Nat.zero_le _))).symm
  · simp [total_tasks]

theorem total_tasks_formula_witness :
    total_tasks 5 12 4 = 12 / 5 + 1
    ∧ 1 ≤ total_tasks 5 12 4
    ∧ (¬ (5 : Nat) ∣ 12 → total_tasks 5 12 4 = total_tasks_spec 5 12 4) :=
  (total_tasks_formula 5 12 4).1 (by decide)

/-! ## split lemmas -/

theorem splitRun_succ (out : String) (groups fuel : Nat) (s : SplitState) :
    splitRun out groups (fuel + 1) s
      = if 0 < s.left then splitRun out groups fuel (splitStep out groups s) else s :=
  rfl

theorem chunkFiles_nil (out : String) (groups idx : Nat) :
    chunkFiles out groups idx [] = [] := by
  rw [chunkFiles]
  simp

theorem chunkFiles_cons (out : String) (groups idx : Nat) (rg : RowGroupMeta)
    (l : List RowGroupMeta) (hG : groups ≠ 0) :
    chunkFiles out groups idx (rg :: l)
      = { name := splitFileName out idx, rowGroups := (appendRowGroups headerSize ((rg :: l).take groups)).1 }
        :: chunkFiles out groups (idx + 1) ((rg :: l).drop groups) := by
  rw [chunkFiles]
  simp [hG]

theorem splitStep_spec (out : String) (groups idx : Nat) (l : List RowGroupMeta)
    (fs : List SplitFile) :
    splitStep out groups { outputIdx := idx, pending := l, left := l.length, files := fs }
      = { outputIdx := idx + 1
          pending := l.drop groups
          left := (l.drop groups).length
          files := fs ++ [{ name := splitFileName out idx, rowGroups := (appendRowGroups headerSize (l.take groups)).1 }] } := by
  simp [splitStep, List.length_take]
  omega

theorem splitRun_spec (out : String) (groups : Nat) (hG : 1 ≤ groups) :
    ∀ (fuel : Nat) (l : List RowGroupMeta) (idx : Nat) (fs : List SplitFile),
      l.length ≤ fuel →
      splitRun out groups fuel { outputIdx := idx, pending := l, left := l.length, files := fs }
        = { outputIdx := idx + (chunkFiles out groups idx l).length
            pending := []
            left := 0
            files := fs ++ chunkFiles out groups idx l } := by
  intro fuel
  induction fuel with
  | zero =>
    intro l idx fs hl
    have hnil : l = [] := List.length_eq_zero.mp (Nat.le_zero.mp hl)
    subst hnil
    simp [splitRun, chunkFiles_nil]
  | succ n ih =>
    intro l idx fs hl
    cases l with
    | nil => simp [splitRun_succ, chunkFiles_nil]
    | cons rg l' =>
      rw [splitRun_succ, if_pos (by simp)]
      rw [splitStep_spec out groups idx (rg :: l') fs]
      rw [ih ((rg :: l').drop groups) (idx + 1)
        (fs ++ [({ name := splitFileName out idx, rowGroups := (appendRowGroups headerSize ((rg :: l').take groups)).1 } : SplitFile)])
        (by simp only [List.length_drop, List.length_cons] at hl ⊢; omega)]
      rw [chunkFiles_cons out groups idx rg l' (by omega)]
      simp only [SplitState.mk.injEq]
      refine ⟨by simp only [List.length_cons]; omega, trivial, trivial, by simp⟩

theorem chunkFiles_length (out : String) (groups : Nat) (hG : 1 ≤ groups) :
    ∀ (fuel : Nat) (l : List RowGroupMeta) (idx : Nat), l.length ≤ fuel →
      (chunkFiles out groups idx l).length = (l.length + groups - 1) / groups := by
  intro fuel
  induction fuel with
  | zero =>
    intro l idx hl
    have hnil : l = [] := List.length_eq_zero.mp (Nat.le_zero.mp hl)
    subst hnil
    rw [chunkFiles_nil]
    simp [Nat.div_eq_of_lt (by omega : groups - 1 < groups)]
  | succ n ih =>
    intro l idx hl
    cases l with
    | nil =>
      rw [chunkFiles_nil]
      simp [Nat.div_eq_of_lt (by omega : groups - 1 < groups)]
    | cons rg l' =>
      rw [chunkFiles_cons out groups idx rg l' (by omega)]
      rw [List.length_cons,
        ih ((rg :: l').drop groups) (idx + 1)
          (by simp only [List.length_drop, List.length_cons] at hl ⊢; omega)]
      simp only [List.length_drop, List.length_cons]
      have hrhs : l'.length + 1 + groups - 1 = l'.length + groups := by omega
      rw [hrhs, Nat.add_div_right _ hG]
      rcases le_or_lt groups (l'.length + 1) with hle | hlt
      · have h1 : l'.length + 1 - groups + groups - 1 = l'.length := by omega
        rw [h1]
      · have h1 : l'.length + 1 - groups + groups - 1 = groups - 1 := by omega
        rw [h1, Nat.div_eq_of_lt (by omega),
          Nat.div_eq_of_lt (by omega : l'.length < groups)]

theorem chunkFiles_get (out : String) (groups : Nat) (hG : 1 ≤ groups) :
    ∀ (fuel : Nat) (l : List RowGroupMeta) (idx : Nat), l.length ≤ fuel →
      ∀ (i : Nat) (hi : i < (chunkFiles out groups idx l).length),
        (chunkFiles out groups idx l).get ⟨i, hi⟩
          = { name := splitFileName out (idx + i), rowGroups := (appendRowGroups headerSize ((l.drop (i * groups)).take groups)).1 } := by
  intro fuel
  induction fuel with
  | zero =>
    intro l idx hl i hi
    have hnil : l = [] := List.length_eq_zero.mp (Nat.le_zero.mp hl)
    subst hnil
    rw [chunkFiles_nil] at hi
    exact absurd hi (by simp)
  | succ n ih =>
    intro l idx hl i hi
    cases l with
    | nil =>
      rw [chunkFiles_nil] at hi
      exact absurd hi (by simp)
    | cons rg l' =>
      have hcons := chunkFiles_cons out groups idx rg l' (by omega)
      cases i with
      | zero =>
        have : (chunkFiles out groups idx (rg :: l')).get ⟨0, hi⟩
            = { name := splitFileName out idx, rowGroups := (appendRowGroups headerSize ((rg :: l').take groups)).1 } := by
          rw [List.get_of_eq hcons]
          rfl
        rw [this]
        simp
      | succ i =>
        have hi' : i + 1 < (chunkFiles out groups idx (rg :: l')).length := hi
        have hlen : i < (chunkFiles out groups (idx + 1) ((rg :: l').drop groups)).length := by
          have := hi'
          rw [hcons] at this
          simpa using this
        have htail : (chunkFiles out groups idx (rg :: l')).get ⟨i + 1, hi⟩
            = (chunkFiles out groups (idx + 1) ((rg :: l').drop groups)).get ⟨i, hlen⟩ := by
          rw [List.get_of_eq hcons]
          rfl
        rw [htail, ih ((rg :: l').drop groups) (idx + 1)
          (by simp only [List.length_drop, List.length_cons] at hl ⊢; omega) i hlen]
        have h1 : ((rg :: l').drop groups).drop (i * groups)
            = (rg :: l').drop ((i + 1) * groups) := by
          rw [List.drop_drop]
          congr 1
          ring
        have h2 : idx + 1 + i = idx + (i + 1) := by omega
        rw [h1, h2]

/-! ## Claim C4 -/

/-- C4: for every input row-group list and every groups value G ≥ 1, split
partitions the ordered row-group sequence into consecutive chunks of at
most G row groups (only the last chunk shorter): the loop stops within one
iteration per row group, emits exactly ceil(N / G) output files, and the
i-th file is named with the zero-padded index i and holds exactly the
transplanted chunk of (at most G) consecutive row groups starting at
position i * G — so groups stay in order and two consecutive row groups
land in the same or consecutive outputs. -/
theorem split_partition (out : String) (groups : Nat) (rgs : List RowGroupMeta)
    (hG : 1 ≤ groups) :
    (splitRun out groups rgs.length (splitInit rgs)).left = 0
    ∧ (splitRun out groups rgs.length (splitInit rgs)).pending = []
    ∧ ((splitRun out groups rgs.length (splitInit rgs)).files).length
        = (rgs.length + groups - 1) / groups
    ∧ ∀ (i : Nat) (hi : i < ((splitRun out groups rgs.length (splitInit rgs)).files).length),
        ((splitRun out groups rgs.length (splitInit rgs)).files).get ⟨i, hi⟩
          = { name := splitFileName out i, rowGroups := (appendRowGroups headerSize ((rgs.drop (i * groups)).take groups)).1 } := by
  have hrun := splitRun_spec out groups hG rgs.length rgs 0 [] (Nat.le_refl _)
  have hinit : splitInit rgs
      = { outputIdx := 0, pending := rgs, left := rgs.length, files := [] } := rfl
  rw [hinit, hrun]
  refine ⟨rfl, rfl, ?_, ?_⟩
  · simpa using chunkFiles_length out groups hG rgs.length rgs 0 (Nat.le_refl _)
  · intro i hi
    simp only [List.nil_append] at hi ⊢
    have := chunkFiles_get out groups hG rgs.length rgs 0 (Nat.le_refl _) i hi
    rw [this]
    simp

theorem split_partition_witness :
    1 ≤ 3
    ∧ ((splitRun "part" 3 ([⟨1, []⟩, ⟨2, []⟩, ⟨3, []⟩, ⟨4, []⟩, ⟨5, []⟩, ⟨6, []⟩, ⟨7, []⟩] : List RowGroupMeta).length
          (splitInit [⟨1, []⟩, ⟨2, []⟩, ⟨3, []⟩, ⟨4, []⟩, ⟨5, []⟩, ⟨6, []⟩, ⟨7, []⟩])).left = 0
        ∧ (splitRun "part" 3 ([⟨1, []⟩, ⟨2, []⟩, ⟨3, []⟩, ⟨4, []⟩, ⟨5, []⟩, ⟨6, []⟩, ⟨7, []⟩] : List RowGroupMeta).length
          (splitInit [⟨1, []⟩, ⟨2, []⟩, ⟨3, []⟩, ⟨4, []⟩, ⟨5, []⟩, ⟨6, []⟩, ⟨7, []⟩])).pending = []
        ∧ ((splitRun "part" 3 ([⟨1, []⟩, ⟨2, []⟩, ⟨3, []⟩, ⟨4, []⟩, ⟨5, []⟩, ⟨6, []⟩, ⟨7, []⟩] : List RowGroupMeta).length
          (splitInit [⟨1, []⟩, ⟨2, []⟩, ⟨3, []⟩, ⟨4, []⟩, ⟨5, []⟩, ⟨6, []⟩, ⟨7, []⟩])).files).length
          = (([⟨1, []⟩, ⟨2, []⟩, ⟨3, []⟩, ⟨4, []⟩, ⟨5, []⟩, ⟨6, []⟩, ⟨7, []⟩] : List RowGroupMeta).length + 3 - 1) / 3
        ∧ ∀ (i : Nat) (hi : i < ((splitRun "part" 3 ([⟨1, []⟩, ⟨2, []⟩, ⟨3, []⟩, ⟨4, []⟩, ⟨5, []⟩, ⟨6, []⟩, ⟨7, []⟩] : List RowGroupMeta).length
            (splitInit [⟨1, []⟩, ⟨2, []⟩, ⟨3, []⟩, ⟨4, []⟩, ⟨5, []⟩, ⟨6, []⟩, ⟨7, []⟩])).files).length),
            ((splitRun "part" 3 ([⟨1, []⟩, ⟨2, []⟩, ⟨3, []⟩, ⟨4, []⟩, ⟨5, []⟩, ⟨6, []⟩, ⟨7, []⟩] : List RowGroupMeta).length
              (splitInit [⟨1, []⟩, ⟨2, []⟩, ⟨3, []⟩, ⟨4, []⟩, ⟨5, []⟩, ⟨6, []⟩, ⟨7, []⟩])).files).get ⟨i, hi⟩
              = { name := splitFileName "part" i, rowGroups := (appendRowGroups headerSize ((([⟨1, []⟩, ⟨2, []⟩, ⟨3, []⟩, ⟨4, []⟩, ⟨5, []⟩, ⟨6, []⟩, ⟨7, []⟩] : List RowGroupMeta).drop (i * 3)).take 3)).1 })
    ∧ ((splitRun "part" 3 7 (splitInit [⟨1, []⟩, ⟨2, []⟩, ⟨3, []⟩, ⟨4, []⟩, ⟨5, []⟩, ⟨6, []⟩, ⟨7, []⟩])).files).map
        (fun f => f.rowGroups.length) = [3, 3, 1] :=
  ⟨by decide,
   split_partition "part" 3 [⟨1, []⟩, ⟨2, []⟩, ⟨3, []⟩, ⟨4, []⟩, ⟨5, []⟩, ⟨6, []⟩, ⟨7, []⟩] (by decide),
   by rfl⟩

/-! ## Claim C10 -/

theorem splitRun_zero_groups (out : String) :
    ∀ (fuel : Nat) (s : SplitState), 0 < s.left →
      (splitRun out 0 fuel s).left = s.left
      ∧ (splitRun out 0 fuel s).pending = s.pending
      ∧ ((splitRun out 0 fuel s).files).length = s.files.length + fuel
      ∧ ∀ f ∈ (splitRun out 0 fuel s).files, f ∈ s.files ∨ f.rowGroups = [] := by
  intro fuel
  induction fuel with
  | zero =>
    intro s h
    refine ⟨rfl, rfl, rfl, ?_⟩
    intro f hf
    exact Or.inl hf
  | succ n ih =>
    intro s h
    have hstep : splitStep out 0 s
        = { outputIdx := s.outputIdx + 1
            pending := s.pending
            left := s.left
            files := s.files ++ [{ name := splitFileName out s.outputIdx, rowGroups := [] }] } := by
      simp [splitStep, appendRowGroups]
    rw [splitRun_succ, if_pos h, hstep]
    obtain ⟨h1, h2, h3, h4⟩ := ih
      { outputIdx := s.outputIdx + 1
        pending := s.pending
        left := s.left
        files := s.files ++ [{ name := splitFileName out s.outputIdx, rowGroups := [] }] }
      h
    refine ⟨h1, h2, ?_, ?_⟩
    · rw [h3]
      simp only [List.length_append, List.length_cons, List.length_nil]
      omega
    · intro f hf
      rcases h4 f hf with hmem | hempty
      · rcases List.mem_append.mp hmem with hmem' | hone
        · exact Or.inl hmem'
        · right
          rw [List.mem_singleton.mp hone]
      · exact Or.inr hempty

/-- C10: the split loop terminates exactly when G ≥ 1 or the input has no
row groups: for G ≥ 1 the `left` counter reaches 0 (and the pending
iterator empties) within one iteration per row group; for an empty input
the loop body never runs; but for G = 0 on a non-empty input, after any
number of iterations the `left` counter still equals the full row-group
count — the loop guard never becomes false, so the loop never terminates —
while one new output file per iteration is created, each holding no row
groups at all. -/
theorem split_termination_iff (out : String) :
    (∀ (groups : Nat) (rgs : List RowGroupMeta), 1 ≤ groups →
        (splitRun out groups rgs.length (splitInit rgs)).left = 0
        ∧ (splitRun out groups rgs.length (splitInit rgs)).pending = [])
    ∧ (∀ (groups fuel : Nat), splitRun out groups fuel (splitInit []) = splitInit [])
    ∧ (∀ (rg : RowGroupMeta) (rgs : List RowGroupMeta) (fuel : Nat),
        (splitRun out 0 fuel (splitInit (rg :: rgs))).left = (rg :: rgs).length
        ∧ (splitRun out 0 fuel (splitInit (rg :: rgs))).pending = rg :: rgs
        ∧ ((splitRun out 0 fuel (splitInit (rg :: rgs))).files).length = fuel
        ∧ ∀ f ∈ (splitRun out 0 fuel (splitInit (rg :: rgs))).files,
            f.rowGroups = []) := by
  refine ⟨?_, ?_, ?_⟩
  · intro groups rgs hG
    have hinit : splitInit rgs
        = { outputIdx := 0, pending := rgs, left := rgs.length, files := [] } := rfl
    rw [hinit, splitRun_spec out groups hG rgs.length rgs 0 [] (Nat.le_refl _)]
    exact ⟨rfl, rfl⟩
  · intro groups fuel
    cases fuel with
    | zero => rfl
    | succ n =>
      rw [splitRun_succ, if_neg]
      simp [splitInit]
  · intro rg rgs fuel
    have h := splitRun_zero_groups out fuel (splitInit (rg :: rgs)) (by simp [splitInit])
    refine ⟨h.1, h.2.1, by simpa [splitInit] using h.2.2.1, ?_⟩
    intro f hf
    rcases h.2.2.2 f hf with hmem | hempty
    · exact absurd hmem (by simp [splitInit])
    · exact hempty

theorem split_termination_iff_witness :
    ((splitRun "w" 2 ([⟨1, []⟩, ⟨2, []⟩, ⟨3, []⟩] : List RowGroupMeta).length
        (splitInit [⟨1, []⟩, ⟨2, []⟩, ⟨3, []⟩])).left = 0
      ∧ (splitRun "w" 2 ([⟨1, []⟩, ⟨2, []⟩, ⟨3, []⟩] : List RowGroupMeta).length
        (splitInit [⟨1, []⟩, ⟨2, []⟩, ⟨3, []⟩])).pending = [])
    ∧ ((splitRun "w" 0 5 (splitInit [⟨1, []⟩])).left = ([⟨1, []⟩] : List RowGroupMeta).length
      ∧ (splitRun "w" 0 5 (splitInit [⟨1, []⟩])).pending = [(⟨1, []⟩ : RowGroupMeta)]
      ∧ ((splitRun "w" 0 5 (splitInit [⟨1, []⟩])).files).length = 5
      ∧ ∀ f ∈ (splitRun "w" 0 5 (splitInit [⟨1, []⟩])).files, f.rowGroups = []) :=
  ⟨(split_termination_iff "w").1 2 [⟨1, []⟩, ⟨2, []⟩, ⟨3, []⟩] (by decide),
   (split_termination_iff "w").2.2 ⟨1, []⟩ [] 5⟩

/-! ## Claim C6 -/

theorem contentMessages_until_error (oks : List Batch) (e : DecodeError)
    (more : List (Except DecodeError Batch)) :
    contentMessages (oks.map Except.ok ++ Except.error e :: more)
      = oks.map Message.CONTENT := by
  induction oks with
  | nil => rfl
  | cons b bs ih => simp [contentMessages, ih]

/-- C6 (counterexample): on a batch sequence whose second batch fails to
decode, the reader drops the remaining good batch and still sends its
termination signals, and the whole repartition run reports no error and
exits with code 0 — the decode failure is swallowed, not surfaced. -/
theorem decode_failure_swallowed :
    readerMessages
        [Except.ok ⟨5⟩, Except.error (DecodeError.corrupt 1), Except.ok ⟨7⟩] 1
      = [Message.CONTENT ⟨5⟩, Message.DONE]
    ∧ (main { max_row_group_count := 0, max_row_group_size := 1000000, jobs := 1, pfx := some "out" }
        { schema := [], rowGroups := [] }
        [Except.ok ⟨5⟩, Except.error (DecodeError.corrupt 1), Except.ok ⟨7⟩]).exitCode = 0
    ∧ (main { max_row_group_count := 0, max_row_group_size := 1000000, jobs := 1, pfx := some "out" }
        { schema := [], rowGroups := [] }
        [Except.ok ⟨5⟩, Except.error (DecodeError.corrupt 1), Except.ok ⟨7⟩]).errorReported = false := by
  refine ⟨by decide, by decide, by decide⟩

/-- C6 (amended): a decode failure does terminate the batch sequence early
— every batch after the first failure is dropped — but the failure is not
surfaced to the caller: the reader thread only breaks its loop and sends
the termination signals as if the source were exhausted, and the overall
operation reports no error and exits with code 0, claiming success. -/
theorem decode_failure_terminates_early_silently
    (oks : List Batch) (e : DecodeError) (more : List (Except DecodeError Batch))
    (tasks gcount ssize jobs : Nat) (p : String) (input : Footer) :
    readerMessages (oks.map Except.ok ++ Except.error e :: more) tasks
      = oks.map Message.CONTENT ++ List.replicate tasks Message.DONE
    ∧ (main { max_row_group_count := gcount, max_row_group_size := ssize + 1, jobs := jobs, pfx := some p }
        input (oks.map Except.ok ++ Except.error e :: more)).exitCode = 0
    ∧ (main { max_row_group_count := gcount, max_row_group_size := ssize + 1, jobs := jobs, pfx := some p }
        input (oks.map Except.ok ++ Except.error e :: more)).errorReported = false := by
  refine ⟨?_, ?_, ?_⟩
  · rw [readerMessages, contentMessages_until_error]
  · simp [main]
  · simp [main]

/-! ## Claim C8 -/

/-- C8 (counterexample): invoked with a rows-per-group size of 0 and an
output path, main logs the error and returns normally: the process exit
code is 0 — not non-zero — and the input file's metadata has already been
read (summary_info runs before the size check), so the rejection is not
"before any I/O"; no output file is created. -/
theorem zero_size_exit_code_zero :
    (main { max_row_group_count := 2, max_row_group_size := 0, jobs := 4, pfx := some "out" }
      { schema := [], rowGroups := [] } []).exitCode = 0
    ∧ (main { max_row_group_count := 2, max_row_group_size := 0, jobs := 4, pfx := some "out" }
      { schema := [], rowGroups := [] } []).actions
      = [MainAction.readInputMeta,
         MainAction.logError "please set a value bigger than 0 for max_row_group_size"]
    ∧ (main { max_row_group_count := 2, max_row_group_size := 0, jobs := 4, pfx := some "out" }
      { schema := [], rowGroups := [] } []).outputs = [] := by
  refine ⟨by decide, by decide, by decide⟩

/-- C8 (amended): every invocation with an output path and size 0 is
rejected before any output file is created — the action trace contains no
createOutput and the outputs list is empty — but only after the input
file's metadata has been read and summarized, and the rejection consists
of logging an error message to the error stream and returning normally:
the process exit code is 0, not non-zero. -/
theorem zero_size_rejected_after_input_read (gcount jobs : Nat) (p : String)
    (input : Footer) (batches : List (Except DecodeError Batch)) :
    (main { max_row_group_count := gcount, max_row_group_size := 0, jobs := jobs, pfx := some p }
        input batches).actions
      = [MainAction.readInputMeta,
         MainAction.logError "please set a value bigger than 0 for max_row_group_size"]
    ∧ (main { max_row_group_count := gcount, max_row_group_size := 0, jobs := jobs, pfx := some p }
        input batches).exitCode = 0
    ∧ (main { max_row_group_count := gcount, max_row_group_size := 0, jobs := jobs, pfx := some p }
        input batches).outputs = []
    ∧ ∀ name, MainAction.createOutput name
        ∉ (main { max_row_group_count := gcount, max_row_group_size := 0, jobs := jobs, pfx := some p }
            input batches).actions := by
  refine ⟨rfl, rfl, rfl, ?_⟩
  intro name
  simp [main]

/-! ## Claim C9 -/

/-- C9 (counterexample): a worker whose receive on the shared queue times
out does stop blocking, flush and close — but it reports nothing: no
WorkerStalled condition (nor any error) is produced for the caller,
refuting the claimed report. -/
theorem worker_timeout_reports_nothing :
    (workerBody [RecvEvent.timedOut]).closed = true
    ∧ (workerBody [RecvEvent.timedOut]).flushed = true
    ∧ (workerBody [RecvEvent.timedOut]).exit = WorkerExit.stalled
    ∧ workerReport (workerBody [RecvEvent.timedOut]) = none := by
  refine ⟨by decide, by decide, by decide, by decide⟩

theorem workerLoop_content (pre : List Batch) (evs : List RecvEvent)
    (acc : List Batch) :
    workerLoop (pre.map (fun b => RecvEvent.recv (Message.CONTENT b)) ++ evs) acc
      = workerLoop evs (acc ++ pre) := by
  induction pre generalizing acc with
  | nil => simp
  | cons b bs ih =>
    show workerLoop (RecvEvent.recv (Message.CONTENT b)
        :: (bs.map (fun b => RecvEvent.recv (Message.CONTENT b)) ++ evs)) acc
      = workerLoop evs (acc ++ b :: bs)
    rw [workerLoop, ih]
    simp

/-- C9 (amended): when a worker's receive times out after it has consumed
any sequence of data batches, the worker stops blocking, flushes and
closes its possibly partial output exactly once — but it reports no
WorkerStalled (nor any other) condition: its loop exit is silent and the
operation proceeds as success. -/
theorem worker_timeout_closes_silently (pre : List Batch) (rest : List RecvEvent) :
    workerBody (pre.map (fun b => RecvEvent.recv (Message.CONTENT b))
        ++ RecvEvent.timedOut :: rest)
      = { written := pre, flushed := true, closed := true, exit := WorkerExit.stalled }
    ∧ workerReport (workerBody (pre.map (fun b => RecvEvent.recv (Message.CONTENT b))
        ++ RecvEvent.timedOut :: rest)) = none := by
  have h1 : workerLoop (pre.map (fun b => RecvEvent.recv (Message.CONTENT b))
      ++ RecvEvent.timedOut :: rest) [] = (pre, WorkerExit.stalled) := by
    rw [workerLoop_content]
    simp [workerLoop]
  constructor
  · rw [workerBody, h1]
  · rw [workerBody, h1]
    rfl

/-! ## Claim C7: dispatcher lemmas -/

theorem contentMessages_ne_done (batches : List (Except DecodeError Batch)) :
    ∀ m ∈ contentMessages batches, m ≠ Message.DONE := by
  induction batches with
  | nil =>
    intro m hm
    simp [contentMessages] at hm
  | cons b bs ih =>
    cases b with
    | ok v =>
      intro m hm
      rw [contentMessages] at hm
      rcases List.mem_cons.mp hm with h | h
      · subst h
        simp
      · exact ih m h
    | error e =>
      intro m hm
      simp [contentMessages] at hm

theorem readerMessages_done_count (batches : List (Except DecodeError Batch))
    (tasks : Nat) :
    (readerMessages batches tasks).countP isDone = tasks := by
  rw [readerMessages, List.countP_append, List.countP_replicate]
  have h0 : (contentMessages batches).countP isDone = 0 :=
    List.countP_eq_zero.mpr (fun m hm => by
      simpa [isDone] using contentMessages_ne_done batches m hm)
  simp [h0, isDone]

theorem countP_getElem_le {α : Type} (p : α → Bool) (l : List α) (i : Nat)
    (hi : i < l.length) : (if p l[i] then 1 else 0) ≤ l.countP p := by
  by_cases h : p l[i]
  · simp only [h, if_true]
    exact List.countP_pos.mpr ⟨l[i], List.get_mem l i hi, h⟩
  · simp [h]

theorem countP_set_false_true {α : Type} (p : α → Bool) (l : List α) (i : Nat)
    (hi : i < l.length) (a : α) (hold : p l[i] = false) (hnew : p a = true) :
    (l.set i a).countP p = l.countP p + 1 := by
  have hset := List.countP_set p l i a hi
  rw [hold, if_neg Bool.false_ne_true, Nat.sub_zero, hnew, if_pos rfl] at hset
  exact hset

theorem countP_set_true_false {α : Type} (p : α → Bool) (l : List α) (i : Nat)
    (hi : i < l.length) (a : α) (hold : p l[i] = true) (hnew : p a = false) :
    (l.set i a).countP p + 1 = l.countP p := by
  have hset := List.countP_set p l i a hi
  have hbound := countP_getElem_le p l i hi
  rw [hold, if_pos rfl] at hset hbound
  rw [hnew, if_neg Bool.false_ne_true, Nat.add_zero] at hset
  omega

theorem countP_set_true_true {α : Type} (p : α → Bool) (l : List α) (i : Nat)
    (hi : i < l.length) (a : α) (hold : p l[i] = true) (hnew : p a = true) :
    (l.set i a).countP p = l.countP p := by
  have hset := List.countP_set p l i a hi
  have hbound := countP_getElem_le p l i hi
  rw [hold, if_pos rfl] at hset hbound
  rw [hnew, if_pos rfl] at hset
  omega

theorem countP_set_false_false {α : Type} (p : α → Bool) (l : List α) (i : Nat)
    (hi : i < l.length) (a : α) (hold : p l[i] = false) (hnew : p a = false) :
    (l.set i a).countP p = l.countP p := by
  have hset := List.countP_set p l i a hi
  rw [hold, if_neg Bool.false_ne_true, Nat.sub_zero, hnew,
    if_neg Bool.false_ne_true, Nat.add_zero] at hset
  exact hset

theorem DInv_init (tasks jobs : Nat) (batches : List (Except DecodeError Batch))
    (hT : 1 ≤ tasks) :
    DInv jobs (dispatchInit tasks jobs batches) := by
  refine ⟨?_, ?_, ?_, ?_, ?_, ?_⟩
  · simp [dispatchInit, List.countP_replicate, isWaiting]
  · simp only [dispatchInit]
    rw [readerMessages_done_count, List.countP_replicate]
    simp [isNonClosed]
  · intro w hw
    rw [List.eq_of_mem_replicate hw]
    intro h
    simp at h
  · intro w hw _
    rw [List.eq_of_mem_replicate hw]
  · exact ⟨contentMessages batches, tasks, rfl, contentMessages_ne_done batches⟩
  · intro hall
    have hmem : (⟨WPhase.pending, 0⟩ : DWorker)
        ∈ (dispatchInit tasks jobs batches).workers := by
      simp only [dispatchInit]
      exact List.mem_replicate.mpr ⟨by omega, rfl⟩
    have := hall _ hmem
    simp at this

theorem DInv_step {jobs : Nat} {s s' : DState} (hstep : DStep s s')
    (hinv : DInv jobs s) : DInv jobs s' := by
  obtain ⟨hcb, hdb, hcc, hco, hsh, hdr⟩ := hinv
  cases hstep with
  | start i hi w hw hp hc =>
    have hw' : s.workers[i] = w := hw
    have hwmem : w ∈ s.workers := by
      rw [← hw]
      exact List.get_mem _ _ _
    refine ⟨?_, ?_, ?_, ?_, ?_, ?_⟩
    · dsimp only
      rw [countP_set_false_true isWaiting s.workers i hi _
        (by rw [hw']; simp [isWaiting, hp]) (by simp [isWaiting])]
      omega
    · dsimp only
      rw [countP_set_true_true isNonClosed s.workers i hi _
        (by rw [hw']; simp [isNonClosed, hp]) (by simp [isNonClosed])]
      exact hdb
    · intro ww hww hph
      rcases List.mem_or_eq_of_mem_set hww with h | h
      · exact hcc ww h hph
      · subst h
        simp at hph
    · intro ww hww hph
      rcases List.mem_or_eq_of_mem_set hww with h | h
      · exact hco ww h hph
      · subst h
        have h0 : w.closes = 0 := hco w hwmem (by rw [hp]; simp)
        simpa using h0
    · exact hsh
    · intro hall
      have hi2 : i < (s.workers.set i
          (⟨WPhase.waiting, w.closes⟩ : DWorker)).length := by
        simpa [List.length_set] using hi
      have hgs := List.get_set_eq (l := s.workers) (i := i)
        (a := (⟨WPhase.waiting, w.closes⟩ : DWorker)) hi2
      have hmem : (⟨WPhase.waiting, w.closes⟩ : DWorker)
          ∈ s.workers.set i ⟨WPhase.waiting, w.closes⟩ :=
        List.mem_iff_get.mpr ⟨⟨i, hi2⟩, hgs⟩
      have hcl := hall _ hmem
      simp at hcl
  | data b rest i hi w hw hq hp =>
    have hwmem : w ∈ s.workers := by
      rw [← hw]
      exact List.get_mem _ _ _
    refine ⟨hcb, ?_, hcc, hco, ?_, ?_⟩
    · dsimp only
      rw [hq, List.countP_cons] at hdb
      simpa [isDone] using hdb
    · obtain ⟨front, k, hqe, hfr⟩ := hsh
      rw [hq] at hqe
      cases front with
      | nil =>
        exfalso
        cases k with
        | zero => simp at hqe
        | succ k2 =>
          rw [List.nil_append, List.replicate_succ] at hqe
          exact Message.noConfusion (List.head_eq_of_cons_eq hqe)
      | cons f fr =>
        rw [List.cons_append] at hqe
        refine ⟨fr, k, List.tail_eq_of_cons_eq hqe, ?_⟩
        intro m hm
        exact hfr m (List.mem_cons_of_mem f hm)
    · intro hall
      have hcl := hall w hwmem
      rw [hp] at hcl
      simp at hcl
  | close rest i hi w hw hq hp =>
    have hw' : s.workers[i] = w := hw
    have hwmem : w ∈ s.workers := by
      rw [← hw]
      exact List.get_mem _ _ _
    have hqcount : s.queue.countP isDone = rest.countP isDone + 1 := by
      rw [hq, List.countP_cons]
      simp [isDone]
    have hfront : rest = List.replicate (s.queue.countP isDone - 1) Message.DONE := by
      obtain ⟨front, k, hqe, hfr⟩ := hsh
      rw [hq] at hqe
      cases front with
      | nil =>
        rw [List.nil_append] at hqe
        cases k with
        | zero => simp at hqe
        | succ k2 =>
          rw [List.replicate_succ] at hqe
          have hrest : rest = List.replicate k2 Message.DONE :=
            List.tail_eq_of_cons_eq hqe
          have hcnt : s.queue.countP isDone = k2 + 1 := by
            rw [hq, hrest, List.countP_cons, List.countP_replicate]
            simp [isDone]
          rw [hrest, hcnt]
          simp
      | cons f fr =>
        exfalso
        rw [List.cons_append] at hqe
        have hfd : f = Message.DONE := (List.head_eq_of_cons_eq hqe).symm
        exact hfr f (List.mem_cons_self f fr) hfd
    have hwait := countP_set_true_false isWaiting s.workers i hi
      (⟨WPhase.closed, w.closes + 1⟩ : DWorker)
      (by rw [hw']; simp [isWaiting, hp]) (by simp [isWaiting])
    have hnc := countP_set_true_false isNonClosed s.workers i hi
      (⟨WPhase.closed, w.closes + 1⟩ : DWorker)
      (by rw [hw']; simp [isNonClosed, hp]) (by simp [isNonClosed])
    refine ⟨?_, ?_, ?_, ?_, ?_, ?_⟩
    · dsimp only
      omega
    · dsimp only
      omega
    · intro ww hww hph
      rcases List.mem_or_eq_of_mem_set hww with h | h
      · exact hcc ww h hph
      · subst h
        have h0 : w.closes = 0 := hco w hwmem (by rw [hp]; simp)
        simp [h0]
    · intro ww hww hph
      rcases List.mem_or_eq_of_mem_set hww with h | h
      · exact hco ww h hph
      · subst h
        exact absurd rfl hph
    · exact ⟨[], s.queue.countP isDone - 1, by simpa using hfront, by simp⟩
    · intro hall
      dsimp only
      have hzero : (s.workers.set i
          (⟨WPhase.closed, w.closes + 1⟩ : DWorker)).countP isNonClosed = 0 :=
        List.countP_eq_zero.mpr (fun ww hww => by simp [isNonClosed, hall ww hww])
      have hrc : rest.countP isDone = 0 := by omega
      rw [hfront] at hrc
      rw [List.countP_replicate] at hrc
      simp [isDone] at hrc
      rw [hfront, hrc]
      rfl


theorem DInv_reach {jobs : Nat} {s0 s : DState} (h0 : DInv jobs s0)
    (h : DReach s0 s) : DInv jobs s := by
  induction h with
  | refl => exact h0
  | tail hsteps hstep ih => exact DInv_step hstep ih

theorem DTerminal_spec {jobs : Nat} {s : DState} (hJ : 1 ≤ jobs)
    (hinv : DInv jobs s) (hterm : DTerminal s) :
    s.queue = [] ∧ ∀ w ∈ s.workers, w.phase = WPhase.closed ∧ w.closes = 1 := by
  obtain ⟨hcb, hdb, hcc, hco, hsh, hdr⟩ := hinv
  have hnowait : ∀ w ∈ s.workers, w.phase ≠ WPhase.waiting := by
    intro w hw hwph
    obtain ⟨⟨i, hi⟩, hget⟩ := List.mem_iff_get.mp hw
    cases hqe : s.queue with
    | nil =>
      rw [hqe] at hdb
      simp only [List.countP_nil] at hdb
      have hpos : 0 < s.workers.countP isNonClosed :=
        List.countP_pos.mpr ⟨w, hw, by simp [isNonClosed, hwph]⟩
      omega
    | cons m rest =>
      cases m with
      | DONE =>
        exact hterm _ (DStep.close s rest i hi w hget hqe hwph)
      | CONTENT b =>
        exact hterm _ (DStep.data s b rest i hi w hget hqe hwph)
  have hnopend : ∀ w ∈ s.workers, w.phase ≠ WPhase.pending := by
    intro w hw hwph
    obtain ⟨⟨i, hi⟩, hget⟩ := List.mem_iff_get.mp hw
    have hwait0 : s.workers.countP isWaiting = 0 :=
      List.countP_eq_zero.mpr (fun a ha => by
        simpa [isWaiting] using hnowait a ha)
    have hcpos : 0 < s.credits := by omega
    exact hterm _ (DStep.start s i hi w hget hwph hcpos)
  have hallc : ∀ w ∈ s.workers, w.phase = WPhase.closed := by
    intro w hw
    cases hph : w.phase with
    | pending => exact absurd hph (hnopend w hw)
    | waiting => exact absurd hph (hnowait w hw)
    | closed => rfl
  exact ⟨hdr hallc, fun w hw => ⟨hallc w hw, hcc w hw (hallc w hw)⟩⟩

theorem DStep_measure {s s' : DState} (hstep : DStep s s') :
    dMeasure s' < dMeasure s := by
  cases hstep with
  | start i hi w hw hp hc =>
    have hw' : s.workers[i] = w := hw
    have hset := countP_set_true_false isPending s.workers i hi
      (⟨WPhase.waiting, w.closes⟩ : DWorker)
      (by rw [hw']; simp [isPending, hp]) (by simp [isPending])
    simp only [dMeasure]
    omega
  | data b rest i hi w hw hq hp =>
    simp only [dMeasure, hq]
    simp
  | close rest i hi w hw hq hp =>
    have hw' : s.workers[i] = w := hw
    have hset := countP_set_false_false isPending s.workers i hi
      (⟨WPhase.closed, w.closes + 1⟩ : DWorker)
      (by rw [hw']; simp [isPending, hp]) (by simp [isPending])
    simp only [dMeasure, hq]
    rw [hset]
    simp

/-- C7: after the reader fills the shared queue — exactly `tasks`
termination signals follow the data messages — every maximal interleaved
execution of the dispatcher with `tasks` workers and at least one
admission credit makes progress at every step (the measure strictly
decreases, so no infinite run exists) and can only stop in a state where
the queue is drained and every one of the `tasks` workers has received its
termination signal and closed exactly once — no worker hangs and none
double-closes — including when `tasks` exceeds `jobs`. -/
theorem dispatcher_termination (tasks jobs : Nat)
    (batches : List (Except DecodeError Batch)) (hJ : 1 ≤ jobs) (hT : 1 ≤ tasks) :
    ((readerMessages batches tasks).countP isDone = tasks)
    ∧ (∀ s, DReach (dispatchInit tasks jobs batches) s → DTerminal s →
        s.queue = [] ∧ ∀ w ∈ s.workers, w.phase = WPhase.closed ∧ w.closes = 1)
    ∧ (∀ s s', DStep s s' → dMeasure s' < dMeasure s) := by
  refine ⟨readerMessages_done_count batches tasks, ?_, fun s s' h => DStep_measure h⟩
  intro s hreach hterm
  exact DTerminal_spec hJ (DInv_reach (DInv_init tasks jobs batches hT) hreach) hterm

theorem dispatcher_termination_witness :
    1 ≤ 1 ∧ 1 ≤ 3
    ∧ (((readerMessages [Except.ok ⟨9⟩] 3).countP isDone = 3)
      ∧ (∀ s, DReach (dispatchInit 3 1 [Except.ok ⟨9⟩]) s → DTerminal s →
          s.queue = [] ∧ ∀ w ∈ s.workers, w.phase = WPhase.closed ∧ w.closes = 1)
      ∧ (∀ s s', DStep s s' → dMeasure s' < dMeasure s)) :=
  ⟨by decide, by decide, dispatcher_termination 3 1 [Except.ok ⟨9⟩] (by decide) (by decide)⟩

end FFParquet
